import Mathlib

/-!
Shallow embedding of the key parts of the `webcrypto` repository
(src/build/webcrypto.es.js and src/unnamed/part_000), together with
theorems settling the specification claims about it.

Buffers / Uint8Arrays are modelled as `List Nat` (byte values), JS errors
as an explicit error type, and the WeakMap key registry as an association
list keyed by an object identity number.  External collaborators (node's
primitive crypto engine: AES block cipher, SHA hashes, HMAC, RSA modular
exponentiation, the ASN.1 codec) are modelled as abstract function
parameters, since the repository treats them as out-of-scope primitives.
-/

namespace Webcrypto

/-- The JS error classes thrown by the code: `core.OperationError`,
plain `Error`, `TypeError` and `core.CryptoError`. -/
inductive JsError where
  | operationError (msg : String)
  | error (msg : String)
  | typeError (msg : String)
  | cryptoError (msg : String)
deriving DecidableEq, Repr

/-- A WebCrypto algorithm descriptor object ({name, length?, hash?, ...});
only the fields the claims touch are modelled. -/
structure Algorithm where
  name : String := ""
  length : Option Nat := none
  hash : Option String := none
deriving DecidableEq, Repr

/-- `InternalCryptoKey`: the internal key-material object (class
`CryptoKey` of the repo, with `data`, `algorithm`, `extractable`, `type`,
`usages`).  `algorithm = none` models a JS `undefined` descriptor. -/
structure KeyMaterial where
  data : List Nat := []
  algorithm : Option Algorithm := none
  extractable : Bool := false
  type : String := "secret"
  usages : List String := []
deriving DecidableEq, Repr

/-- The public handle produced by `core.CryptoKey.create` in
`setCryptoKey`, plus the `__value` own-field the code attaches to it.
`id` models JS object identity (the WeakMap key). -/
structure CoreKey where
  id : Nat
  algorithm : Option Algorithm
  type : String
  extractable : Bool
  usages : List String
  __value : Option KeyMaterial
deriving DecidableEq, Repr

/-- The `keyStorage` WeakMap: handle identity to key material, plus a
fresh-identity counter for newly created handles. -/
structure KeyStorage where
  entries : List (Nat × KeyMaterial) := []
  nextId : Nat := 0
deriving DecidableEq, Repr

/-- `keyStorage.get(key)`: the most recently stored entry wins. -/
def keyStorageGet (st : KeyStorage) (id : Nat) : Option KeyMaterial :=
  st.entries.lookup id

/-- `keyStorage.set(key, value)`: prepend; `keyStorageGet` sees the last set. -/
def keyStorageSet (st : KeyStorage) (id : Nat) (v : KeyMaterial) : KeyStorage :=
  { st with entries := (id, v) :: st.entries }

/-- `setCryptoKey(value)` (src/unnamed/part_000 lines 24-31): creates the
public handle from the material's descriptor fields, stores the material on
the handle's own `__value` field, freezes the handle, and records the
handle-to-material association in the WeakMap. -/
def setCryptoKey (st : KeyStorage) (value : KeyMaterial) : KeyStorage × CoreKey :=
  let key : CoreKey :=
    { id := st.nextId
      algorithm := value.algorithm
      type := value.type
      extractable := value.extractable
      usages := value.usages
      __value := some value }
  ({ entries := (st.nextId, value) :: st.entries, nextId := st.nextId + 1 }, key)

/-- `getCryptoKey(key)` (src/unnamed/part_000 lines 6-22): WeakMap lookup;
if absent but the handle carries `__value`, re-insert that copy and use it;
backfill a missing algorithm descriptor from the handle (the JS mutation of
the shared material object is modelled by updating both the returned
material and the stored entry); otherwise throw an `OperationError`. -/
def getCryptoKey (st : KeyStorage) (key : CoreKey) : KeyStorage × Except JsError KeyMaterial :=
  let res0 := keyStorageGet st key.id
  let step1 : KeyStorage × Option KeyMaterial :=
    match res0, key.__value with
    | none, some v => (keyStorageSet st key.id v, keyStorageGet (keyStorageSet st key.id v) key.id)
    | r, _ => (st, r)
  match step1.2 with
  | some res =>
      if res.algorithm = none ∧ key.algorithm ≠ none then
        let res1 := { res with algorithm := key.algorithm }
        (keyStorageSet step1.1 key.id res1, Except.ok res1)
      else
        (step1.1, Except.ok res)
  | none => (step1.1, Except.error (JsError.operationError "Cannot get CryptoKey from secure storage"))

/-- The algorithm-descriptor backfill `getCryptoKey` performs on the
resolved material: copy the handle's descriptor when the material lacks one. -/
def backfillAlgorithm (key : CoreKey) (m : KeyMaterial) : KeyMaterial :=
  if m.algorithm = none ∧ key.algorithm ≠ none then
    { m with algorithm := key.algorithm }
  else m

/-- The empty registry state. -/
def emptyStorage : KeyStorage := {}

/-- A handle with no registry entry and no embedded material copy. -/
def orphanHandle : CoreKey :=
  { id := 0, algorithm := none, type := "secret",
    extractable := false, usages := [], __value := none }

/-- A concrete key material used as a counterexample input. -/
def sampleMaterial : KeyMaterial :=
  { data := [1, 2, 3]
    algorithm := some { name := "AES-CBC", length := some 128 }
    extractable := true
    type := "secret"
    usages := ["encrypt"] }

/-- C1 counterexample: the handle returned by `setCryptoKey` for
`sampleMaterial` carries the full key material on its own `__value` field,
so the material is not reachable only through the registry table. -/
theorem setCryptoKey_handle_carries_material :
    ((setCryptoKey emptyStorage sampleMaterial).2).__value = some sampleMaterial := by
  rfl

/-- C1 (amended): the handle returned by `setCryptoKey` carries a copy of
the key material on its own `__value` field (stored so the key can be
reconstructed after a process restart), and in addition the registry's
handle-to-material table maps the new handle to the same material; the
handle's descriptor fields are copied from the material. -/
theorem setCryptoKey_spec (st : KeyStorage) (value : KeyMaterial) :
    ((setCryptoKey st value).2).__value = some value ∧
    keyStorageGet (setCryptoKey st value).1 ((setCryptoKey st value).2).id = some value ∧
    ((setCryptoKey st value).2).algorithm = value.algorithm ∧
    ((setCryptoKey st value).2).type = value.type ∧
    ((setCryptoKey st value).2).extractable = value.extractable ∧
    ((setCryptoKey st value).2).usages = value.usages := by
  refine ⟨rfl, ?_, rfl, rfl, rfl, rfl⟩
  simp [setCryptoKey, keyStorageGet, List.lookup]

/-- C3 counterexample: resolving a handle that has no registry entry and
no embedded `__value` copy fails, but with the message
"Cannot get CryptoKey from secure storage", not the message
"key not found in secure storage" stated by the claim. -/
theorem getCryptoKey_error_message :
    (getCryptoKey emptyStorage orphanHandle).2 =
      Except.error (JsError.operationError "Cannot get CryptoKey from secure storage") ∧
    JsError.operationError "Cannot get CryptoKey from secure storage" ≠
      JsError.operationError "key not found in secure storage" := by
  exact ⟨rfl, by decide⟩

/-- C3 (amended): `getCryptoKey` returns the registered key material (with
a missing algorithm descriptor backfilled from the handle); if the handle
has no registry entry but carries an embedded `__value` copy of its
material, it re-inserts that copy into the registry and returns it; if
neither exists it fails with the `OperationError`
"Cannot get CryptoKey from secure storage". -/
theorem getCryptoKey_spec (st : KeyStorage) (key : CoreKey) :
    match keyStorageGet st key.id, key.__value with
    | some m, _ =>
        (getCryptoKey st key).2 = Except.ok (backfillAlgorithm key m)
    | none, some v =>
        (getCryptoKey st key).2 = Except.ok (backfillAlgorithm key v) ∧
        keyStorageGet (getCryptoKey st key).1 key.id = some (backfillAlgorithm key v)
    | none, none =>
        (getCryptoKey st key).2 =
          Except.error (JsError.operationError "Cannot get CryptoKey from secure storage") := by
  have hset : ∀ v : KeyMaterial, ∀ st' : KeyStorage,
      keyStorageGet (keyStorageSet st' key.id v) key.id = some v := by
    intro v st'
    simp [keyStorageGet, keyStorageSet, List.lookup]
  rcases h0 : keyStorageGet st key.id with _ | m
  · rcases hv : key.__value with _ | v
    · simp only [getCryptoKey, h0, hv]
    · simp only [getCryptoKey, h0, hv, hset, backfillAlgorithm]
      by_cases hb : v.algorithm = none ∧ key.algorithm ≠ none
      · simp only [if_pos hb, hset, and_self]
      · simp only [if_neg hb, hset, and_self]
  · rcases hv : key.__value with _ | v <;>
      by_cases hb : m.algorithm = none ∧ key.algorithm ≠ none <;>
      simp [getCryptoKey, h0, hv, backfillAlgorithm, hb]

/-! ## AES-CMAC (RFC 4493, hand-rolled; webcrypto.es.js lines 298-382)

The AES block-cipher primitive (node's `createCipheriv` used as a single
ECB block encryption with zero IV) is abstracted as a function
`aes : key -> block -> block`. -/

/-- The 16-byte `zero` constant. -/
def zeroBlock : List Nat := List.replicate 16 0

/-- The `rb` constant `0x...87`. -/
def rb : List Nat := [0, 0, 0, 0, 0, 0, 0, 0, 0, 0, 0, 0, 0, 0, 0, 135]

/-- `blockSize = 16`. -/
def blockSize : Nat := 16

/-- `bitShiftLeft(buffer)`: shift the whole buffer left by one bit; each
byte (stored mod 256) takes the dropped top bit of its successor as carry. -/
def bitShiftLeft : List Nat → List Nat
  | [] => []
  | [x] => [x * 2 % 256]
  | x :: y :: rest =>
      (x * 2 % 256 + (if y.testBit 7 then 1 else 0)) :: bitShiftLeft (y :: rest)

/-- `xor(a, b)`: byte-wise xor truncated to the shorter input. -/
def xorB (a b : List Nat) : List Nat :=
  List.zipWith (fun x y => x ^^^ y) a b

/-- `getMessageBlock(message, blockIndex)`: 16 bytes starting at
`blockIndex * 16`, zero-padded at the end if the message runs out. -/
def getMessageBlock (message : List Nat) (blockIndex : Nat) : List Nat :=
  let seg := (message.drop (blockIndex * blockSize)).take blockSize
  seg ++ List.replicate (blockSize - seg.length) 0

/-- `getPaddedMessageBlock(message, blockIndex)`: the message tail from
`blockIndex * 16`, followed by a single 0x80 byte and then zeros up to 16
bytes (the 0x80 write is dropped by the JS Buffer if the tail already
fills the block). -/
def getPaddedMessageBlock (message : List Nat) (blockIndex : Nat) : List Nat :=
  let seg := (message.drop (blockIndex * blockSize)).take blockSize
  if seg.length < blockSize then
    seg ++ 0x80 :: List.replicate (blockSize - seg.length - 1) 0
  else seg

/-- `generateSubkeys(key)` (lines 343-354): `l = aes(key, zero)`;
`subkey1 = bitShiftLeft(l)`, xored with `rb` when `l[0] & 0x80`;
`subkey2` likewise derived from `subkey1`. -/
def generateSubkeys (aes : List Nat → List Nat → List Nat) (key : List Nat) :
    List Nat × List Nat :=
  let l := aes key zeroBlock
  let subkey1 := if (l.headD 0).testBit 7 then xorB (bitShiftLeft l) rb else bitShiftLeft l
  let subkey2 :=
    if (subkey1.headD 0).testBit 7 then xorB (bitShiftLeft subkey1) rb else bitShiftLeft subkey1
  (subkey1, subkey2)

/-- The body of `aesCmac(key, message)` (lines 355-382) generalized over
the two subkeys and the initial CBC accumulator `x` (the source fixes
`x = zero`): block count is `ceil(len/16)` forced to 1 for an empty
message; the final block is xored with subkey1 if complete and non-empty,
otherwise padded and xored with subkey2; all blocks are CBC-chained. -/
def aesCmacFrom (aes : List Nat → List Nat → List Nat)
    (key subkey1 subkey2 x0 message : List Nat) : List Nat :=
  let blockCount0 := (message.length + blockSize - 1) / blockSize
  let blockCount := if blockCount0 = 0 then 1 else blockCount0
  let lastBlockCompleteFlag :=
    if blockCount0 = 0 then false else decide (message.length % blockSize = 0)
  let lastBlockIndex := blockCount - 1
  let lastBlock :=
    if lastBlockCompleteFlag then xorB (getMessageBlock message lastBlockIndex) subkey1
    else xorB (getPaddedMessageBlock message lastBlockIndex) subkey2
  let x := (List.range lastBlockIndex).foldl
    (fun x index => aes key (xorB x (getMessageBlock message index))) x0
  aes key (xorB lastBlock x)

/-- `aesCmac(key, message)`: derive the subkeys, then run the CBC-MAC body
with the zero IV. -/
def aesCmac (aes : List Nat → List Nat → List Nat) (key message : List Nat) : List Nat :=
  let subkeys := generateSubkeys aes key
  aesCmacFrom aes key subkeys.1 subkeys.2 zeroBlock message

/-! ### The RFC 4493 computation as the spec words it -/

/-- The spec's padding of a short final block: a single 0x80 byte then
zeros, filling up to 16 bytes. -/
def padBlock (b : List Nat) : List Nat :=
  b ++ 0x80 :: List.replicate (16 - b.length - 1) 0

/-- Subkey derivation as the spec states it:
`subkey1 = leftshift1(L)` xored with `0x...87` exactly when the top bit of
`L` is set, where `L = AES_encrypt(key, 0^128)`; `subkey2` likewise
derived from `subkey1`. -/
def subkeysRfc (aes : List Nat → List Nat → List Nat) (key : List Nat) :
    List Nat × List Nat :=
  let l := aes key zeroBlock
  let subkey1 := if (l.headD 0).testBit 7 then xorB (bitShiftLeft l) rb else bitShiftLeft l
  let subkey2 :=
    if (subkey1.headD 0).testBit 7 then xorB (bitShiftLeft subkey1) rb else bitShiftLeft subkey1
  (subkey1, subkey2)

/-- The spec's CBC chain over the 16-byte blocks of `rest` with
accumulator `x`: a full non-empty final block is xored with subkey1; an
incomplete (or empty) final block is padded and xored with subkey2; every
block is encrypted xored with the previous ciphertext, and the final
ciphertext block is the MAC.  An empty message falls into the padded
branch, i.e. counts as one block. -/
def cmacRfcGo (aes : List Nat → List Nat → List Nat)
    (key subkey1 subkey2 x rest : List Nat) : List Nat :=
  if blockSize < rest.length then
    cmacRfcGo aes key subkey1 subkey2
      (aes key (xorB x (rest.take blockSize))) (rest.drop blockSize)
  else if rest.length = blockSize then
    aes key (xorB x (xorB rest subkey1))
  else
    aes key (xorB x (xorB (padBlock rest) subkey2))
termination_by rest.length
decreasing_by simp [blockSize] at *; omega

/-- The RFC 4493 MAC as described by the spec: derive the subkeys, then
CBC-chain the 16-byte blocks starting from the zero IV. -/
def cmacRfc (aes : List Nat → List Nat → List Nat) (key message : List Nat) : List Nat :=
  let subkeys := subkeysRfc aes key
  cmacRfcGo aes key subkeys.1 subkeys.2 zeroBlock message

/-! ### Equivalence proof -/

theorem xorB_comm (a b : List Nat) : xorB a b = xorB b a := by
  induction a generalizing b with
  | nil => cases b <;> rfl
  | cons x xs ih =>
      cases b with
      | nil => rfl
      | cons y ys =>
          simp only [xorB, List.zipWith, Nat.xor_comm, List.cons.injEq, true_and]
          exact ih ys

theorem getMessageBlock_succ (message : List Nat) (i : Nat) :
    getMessageBlock message (i + 1) = getMessageBlock (message.drop blockSize) i := by
  simp only [getMessageBlock, List.drop_drop]
  have h : blockSize + i * blockSize = (i + 1) * blockSize := by ring
  rw [h]

theorem getPaddedMessageBlock_succ (message : List Nat) (i : Nat) :
    getPaddedMessageBlock message (i + 1) = getPaddedMessageBlock (message.drop blockSize) i := by
  simp only [getPaddedMessageBlock, List.drop_drop]
  have h : blockSize + i * blockSize = (i + 1) * blockSize := by ring
  rw [h]

theorem getMessageBlock_zero_of_le (message : List Nat) (h : blockSize ≤ message.length) :
    getMessageBlock message 0 = message.take blockSize := by
  simp only [getMessageBlock, Nat.zero_mul, List.drop_zero]
  have hl : (message.take blockSize).length = blockSize := by
    simp [List.length_take]; omega
  simp [hl]

theorem getMessageBlock_zero_of_eq (message : List Nat) (h : message.length = blockSize) :
    getMessageBlock message 0 = message := by
  rw [getMessageBlock_zero_of_le message (le_of_eq h.symm)]
  exact List.take_of_length_le (le_of_eq h)

theorem getPaddedMessageBlock_zero (message : List Nat) (h : message.length < blockSize) :
    getPaddedMessageBlock message 0 = padBlock message := by
  have ht : message.take blockSize = message := List.take_of_length_le (le_of_lt h)
  simp only [getPaddedMessageBlock, Nat.zero_mul, List.drop_zero, ht, padBlock]
  rw [if_pos h]
  rfl

theorem foldl_blocks_shift (aes : List Nat → List Nat → List Nat)
    (key x message : List Nat) (k : Nat) (h : blockSize ≤ message.length) :
    (List.range (k + 1)).foldl
        (fun x i => aes key (xorB x (getMessageBlock message i))) x =
      (List.range k).foldl
        (fun x i => aes key (xorB x (getMessageBlock (message.drop blockSize) i)))
        (aes key (xorB x (message.take blockSize))) := by
  rw [List.range_succ_eq_map, List.foldl_cons, List.foldl_map]
  rw [getMessageBlock_zero_of_le message h]
  congr 1
  funext acc i
  rw [getMessageBlock_succ]

theorem aesCmacFrom_step (aes : List Nat → List Nat → List Nat)
    (key k1 k2 x message : List Nat) (h : blockSize < message.length) :
    aesCmacFrom aes key k1 k2 x message =
      aesCmacFrom aes key k1 k2 (aes key (xorB x (message.take blockSize)))
        (message.drop blockSize) := by
  have h' : 16 < message.length := h
  set a := message.length with ha
  have e2L : ¬((a + blockSize - 1) / blockSize = 0) := by
    simp only [blockSize]; omega
  have e2R : ¬((a - blockSize + blockSize - 1) / blockSize = 0) := by
    simp only [blockSize]; omega
  have e1 : (a + blockSize - 1) / blockSize
      = (a - blockSize + blockSize - 1) / blockSize + 1 := by
    simp only [blockSize]; omega
  have emod : decide (a % blockSize = 0) = decide ((a - blockSize) % blockSize = 0) := by
    simp only [blockSize, decide_eq_decide]; omega
  obtain ⟨k, hk⟩ : ∃ k, (a - blockSize + blockSize - 1) / blockSize = k + 1 :=
    ⟨(a - blockSize + blockSize - 1) / blockSize - 1,
      (Nat.succ_pred_eq_of_pos (Nat.pos_of_ne_zero e2R)).symm⟩
  simp only [aesCmacFrom, List.length_drop, ← ha]
  rw [if_neg e2L, if_neg e2L, if_neg e2R, if_neg e2R, e1, emod, hk]
  simp only [Nat.add_sub_cancel]
  rw [foldl_blocks_shift aes key x message k (le_of_lt h)]
  cases hb : decide ((a - blockSize) % blockSize = 0) with
  | false => simp only [Bool.false_eq_true, if_false, getPaddedMessageBlock_succ]
  | true => simp only [if_true, getMessageBlock_succ]

theorem aesCmacFrom_base (aes : List Nat → List Nat → List Nat)
    (key k1 k2 x message : List Nat) (h : message.length ≤ blockSize) :
    aesCmacFrom aes key k1 k2 x message =
      if message.length = blockSize then
        aes key (xorB (xorB message k1) x)
      else
        aes key (xorB (xorB (padBlock message) k2) x) := by
  have h' : message.length ≤ 16 := h
  by_cases hfull : message.length = blockSize
  · have e0 : (message.length + blockSize - 1) / blockSize = 1 := by
      simp only [blockSize] at *; omega
    have emod : decide (message.length % blockSize = 0) = true := by
      rw [hfull]; simp [blockSize]
    rw [if_pos hfull]
    simp only [aesCmacFrom, e0, emod]
    norm_num
    rw [getMessageBlock_zero_of_eq message hfull]
  · have hlt : message.length < blockSize := lt_of_le_of_ne h hfull
    rw [if_neg hfull]
    by_cases hz : message.length = 0
    · have e0 : (message.length + blockSize - 1) / blockSize = 0 := by
        simp only [blockSize] at *; omega
      simp only [aesCmacFrom, e0]
      norm_num
      rw [getPaddedMessageBlock_zero message hlt]
    · have e0 : (message.length + blockSize - 1) / blockSize = 1 := by
        simp only [blockSize] at *; omega
      have emod : decide (message.length % blockSize = 0) = false := by
        simp only [blockSize] at *
        simp only [decide_eq_false_iff_not]
        omega
      simp only [aesCmacFrom, e0, emod]
      norm_num
      rw [getPaddedMessageBlock_zero message hlt]

theorem aesCmacFrom_eq_cmacRfcGo (aes : List Nat → List Nat → List Nat)
    (key k1 k2 : List Nat) (message : List Nat) (x : List Nat) :
    aesCmacFrom aes key k1 k2 x message = cmacRfcGo aes key k1 k2 x message := by
  by_cases h : blockSize < message.length
  · rw [aesCmacFrom_step aes key k1 k2 x message h]
    rw [aesCmacFrom_eq_cmacRfcGo aes key k1 k2 (message.drop blockSize)]
    conv_rhs => rw [cmacRfcGo]
    rw [if_pos h]
  · have hle : message.length ≤ blockSize := le_of_not_lt h
    rw [aesCmacFrom_base aes key k1 k2 x message hle]
    conv_rhs => rw [cmacRfcGo]
    rw [if_neg h]
    by_cases hfull : message.length = blockSize
    · rw [if_pos hfull, if_pos hfull, xorB_comm]
    · rw [if_neg hfull, if_neg hfull, xorB_comm]
termination_by message.length
decreasing_by simp [blockSize] at *; omega

/-- C4: for every AES block-cipher primitive, key and message, the
hand-rolled `aesCmac` computes exactly the RFC 4493 MAC as the spec
describes it: subkeys derived from `L = aes(key, 0^128)` by the
leftshift1 / conditional `0x...87` rule, 16-byte block split with an empty
message counting as one (padded) block, final-block xor with subkey1 when
full and non-empty or with subkey2 after 0x80-padding otherwise, and a
zero-IV CBC chain whose final ciphertext block is the MAC. -/
theorem aesCmac_matches_rfc (aes : List Nat → List Nat → List Nat)
    (key message : List Nat) :
    aesCmac aes key message = cmacRfc aes key message ∧
    generateSubkeys aes key = subkeysRfc aes key := by
  exact ⟨aesCmacFrom_eq_cmacRfcGo aes key _ _ message zeroBlock, rfl⟩

/-! ## HKDF (RFC 5869, hand-rolled; HkdfProvider.onDeriveBits lines 2095-2111)

The HMAC primitive (node's `createHmac(hash, key).update(msg).digest()`)
is abstracted as `hmacFn : key -> msg -> digest`; `hashLength` is the
digest length of the chosen hash (the code reads it off an empty digest). -/

/-- The `onDeriveBits` block loop: starting from `blocks = [Buffer.alloc(0)]`,
push `HMAC(PRK, blocks[i-1] ++ info ++ Buffer.from([i]))` for
`i = 1 .. n`; `blocks[i-1]` is the most recently pushed block, and
`Buffer.from([i])` stores `i` mod 256. -/
def hkdfBlocks (hmacFn : List Nat → List Nat → List Nat) (prk info : List Nat) :
    Nat → List (List Nat)
  | 0 => [[]]
  | n + 1 =>
      let bs := hkdfBlocks hmacFn prk info n
      bs ++ [hmacFn prk (bs.getLastD [] ++ info ++ [(n + 1) % 256])]

/-- `HkdfProvider.onDeriveBits(params, baseKey, length)`:
`PRK = HMAC(salt, secret)`; `blockCount = ceil((length/8) / hashLength) + 1`
(JS real-number division; over the naturals, with `hashLength > 0`, the
count of pushed blocks is `(length + 8*hashLength - 1) / (8*hashLength)`);
the blocks are concatenated and slicing to the fractional byte count
`length/8` truncates it to `length / 8` bytes. -/
def HkdfProvider.onDeriveBits (hmacFn : List Nat → List Nat → List Nat) (hashLength : Nat)
    (secret salt info : List Nat) (length : Nat) : List Nat :=
  let prk := hmacFn salt secret
  let blockCount := (length + 8 * hashLength - 1) / (8 * hashLength) + 1
  ((hkdfBlocks hmacFn prk info (blockCount - 1)).flatten).take (length / 8)

/-- The RFC 5869 T-blocks as the spec words them: `T(0)` is empty and
`T(i) = HMAC(PRK, T(i-1) ‖ info ‖ byte(i))`. -/
def hkdfT (hmacFn : List Nat → List Nat → List Nat) (prk info : List Nat) : Nat → List Nat
  | 0 => []
  | i + 1 => hmacFn prk (hkdfT hmacFn prk info i ++ info ++ [(i + 1) % 256])

/-- The RFC 5869 output as the spec words it: `PRK = HMAC(salt, secret)`;
concatenate `T(1) ‖ … ‖ T(n)` for `n = ceil(byteLength / hashLen)` and
truncate to the requested byte length. -/
def hkdfRfc (hmacFn : List Nat → List Nat → List Nat) (hashLength : Nat)
    (secret salt info : List Nat) (length : Nat) : List Nat :=
  let prk := hmacFn salt secret
  let byteLength := length / 8
  let n := (byteLength + hashLength - 1) / hashLength
  (((List.range n).map (fun i => hkdfT hmacFn prk info (i + 1))).flatten).take byteLength

theorem hkdfBlocks_eq_map_T (hmacFn : List Nat → List Nat → List Nat)
    (prk info : List Nat) (n : Nat) :
    hkdfBlocks hmacFn prk info n
      = (List.range (n + 1)).map (hkdfT hmacFn prk info) := by
  induction n with
  | zero => rfl
  | succ n ih =>
      have hlast : ((List.range (n + 1)).map (hkdfT hmacFn prk info)).getLastD []
          = hkdfT hmacFn prk info n := by
        rw [List.range_succ, List.map_append]
        simp [List.getLastD_concat]
      rw [hkdfBlocks, ih, hlast]
      rw [List.range_succ (n := n + 1), List.map_append]
      rfl

theorem le_ceil_mul (B H : Nat) (hH : 0 < H) : B ≤ (B + H - 1) / H * H := by
  rcases Nat.eq_zero_or_pos B with hB | hB
  · simp [hB]
  · by_contra hcon
    push_neg at hcon
    have h2 : (B + H - 1) / H + 1 ≤ (B + H - 1) / H := by
      rw [Nat.le_div_iff_mul_le hH]
      calc ((B + H - 1) / H + 1) * H = (B + H - 1) / H * H + H := by ring
        _ ≤ B + H - 1 := by omega
    omega

theorem join_map_length (f : Nat → List Nat) (H : Nat)
    (hf : ∀ i, (f i).length = H) (k : Nat) :
    (((List.range k).map f).flatten).length = k * H := by
  rw [List.length_flatten]
  have : ((List.range k).map f).map List.length = (List.range k).map (fun _ => H) := by
    rw [List.map_map]
    exact List.map_congr_left (fun i _ => hf i)
  rw [this, List.map_const', List.sum_replicate, List.length_range, smul_eq_mul]

theorem take_join_of_ceil_le (f : Nat → List Nat) (H B : Nat) (hH : 0 < H)
    (hf : ∀ i, (f i).length = H) :
    ∀ k, (B + H - 1) / H ≤ k →
      (((List.range k).map f).flatten).take B
        = (((List.range ((B + H - 1) / H)).map f).flatten).take B := by
  intro k hk
  induction k with
  | zero =>
      have h0 : (B + H - 1) / H = 0 := Nat.le_zero.mp hk
      rw [h0]
  | succ k ih =>
      by_cases h : (B + H - 1) / H ≤ k
      · rw [List.range_succ, List.map_append, List.flatten_append,
          List.take_append_of_le_length, ih h]
        rw [join_map_length f H hf k]
        calc B ≤ (B + H - 1) / H * H := le_ceil_mul B H hH
          _ ≤ k * H := Nat.mul_le_mul_right H h
      · have : (B + H - 1) / H = k + 1 := by omega
        rw [this]

theorem strip_T0 (hmacFn : List Nat → List Nat → List Nat) (prk info : List Nat) (n : Nat) :
    (((List.range (n + 1)).map (hkdfT hmacFn prk info)).flatten)
      = (((List.range n).map (fun i => hkdfT hmacFn prk info (i + 1))).flatten) := by
  rw [List.range_succ_eq_map, List.map_cons, List.flatten_cons, List.map_map]
  rfl

theorem ceil_bits_le (L H : Nat) (hH : 0 < H) :
    (L / 8 + H - 1) / H ≤ (L + 8 * H - 1) / (8 * H) := by
  rw [Nat.le_div_iff_mul_le (by omega : 0 < 8 * H)]
  have h1 : (L / 8 + H - 1) / H * H ≤ L / 8 + H - 1 := Nat.div_mul_le_self _ H
  have h2 : L / 8 * 8 ≤ L := Nat.div_mul_le_self L 8
  have h3 : (L / 8 + H - 1) / H * (8 * H) = ((L / 8 + H - 1) / H * H) * 8 := by ring
  omega

/-- C6: for every HMAC primitive with positive digest length `hashLength`,
every secret, salt, info and requested bit length, the HKDF
`onDeriveBits` computes exactly the RFC 5869 output the spec describes:
`PRK = HMAC(salt, secret)`, `T(i) = HMAC(PRK, T(i-1) ‖ info ‖ byte(i))`
with `T(0)` empty, and the concatenation `T(1) ‖ T(2) ‖ …` truncated to
the requested byte length. -/
theorem hkdfDeriveBits_matches_rfc (hmacFn : List Nat → List Nat → List Nat)
    (hashLength : Nat) (secret salt info : List Nat) (length : Nat)
    (hH : 0 < hashLength)
    (hlen : ∀ k m, (hmacFn k m).length = hashLength) :
    HkdfProvider.onDeriveBits hmacFn hashLength secret salt info length
      = hkdfRfc hmacFn hashLength secret salt info length := by
  unfold HkdfProvider.onDeriveBits hkdfRfc
  simp only [Nat.add_sub_cancel]
  rw [hkdfBlocks_eq_map_T, strip_T0]
  have hf : ∀ i, (hkdfT hmacFn (hmacFn salt secret) info (i + 1)).length = hashLength := by
    intro i
    rw [hkdfT]
    exact hlen _ _
  rw [take_join_of_ceil_le _ hashLength (length / 8) hH hf
      ((length + 8 * hashLength - 1) / (8 * hashLength))
      (ceil_bits_le length hashLength hH)]

/-- C6 witness: the equivalence applied at a concrete instantiation
(a constant one-byte HMAC, hashLength 1, 16 requested bits). -/
theorem hkdfDeriveBits_matches_rfc_witness :
    HkdfProvider.onDeriveBits (fun _ _ => [7]) 1 [1] [2] [3] 16
      = hkdfRfc (fun _ _ => [7]) 1 [1] [2] [3] 16 :=
  hkdfDeriveBits_matches_rfc (fun _ _ => [7]) 1 [1] [2] [3] 16
    (by decide) (fun _ _ => rfl)

/-! ## RSA-OAEP decryption (RsaOaepProvider.onDecrypt, lines 1125-1177,
and mgf1, lines 1192-1213)

The hash primitive for the selected algorithm is abstracted as
`hashFn : List Nat -> List Nat`; the raw (`RSA_NO_PADDING`) private-key
operation as `privateDecrypt : List Nat -> List Nat`. -/

/-- JS `String.prototype.toUpperCase` on the ASCII algorithm names the
code switches on. -/
def jsToUpperCase (s : String) : String :=
  String.mk (s.data.map Char.toUpper)

/-- `ShaCrypto.size(algorithm)` (lines 1056-1069): digest size in bits. -/
def ShaCrypto.size (name : String) : Except JsError Nat :=
  match jsToUpperCase name with
  | "SHA-1" => Except.ok 160
  | "SHA-256" => Except.ok 256
  | "SHA-384" => Except.ok 384
  | "SHA-512" => Except.ok 512
  | _ => Except.error (JsError.error "Unrecognized name")

/-- The 4-byte big-endian counter `mgf1` builds from the chunk index
(JS `>>> 24`, `>>> 16 & 255`, `>>> 8 & 255`, `& 255` on the uint32 value). -/
def be32 (i : Nat) : List Nat :=
  let iu := i % 4294967296
  [iu / 16777216, iu / 65536 % 256, iu / 256 % 256, iu % 256]

/-- `submask.set(chunk)` inside `mgf1`: overwrite `mask` at `off` with
`chunk` (the caller has already truncated `chunk` to fit). -/
def writeAt (mask : List Nat) (off : Nat) (chunk : List Nat) : List Nat :=
  mask.take off ++ chunk ++ mask.drop (off + chunk.length)

/-- The chunk loop of `mgf1` for a known digest byte size: the mask starts
as `length` zero bytes; chunk `i` is `hash(seed ++ BE32(i))`, truncated to
the remaining sub-mask and written at offset `i * hashSize`;
`chunks = ceil(length / hashSize)`. -/
def mgf1Core (hashFn : List Nat → List Nat) (hashSize : Nat)
    (seed : List Nat) (length : Nat) : List Nat :=
  let chunks := (length + hashSize - 1) / hashSize
  (List.range chunks).foldl
    (fun mask i =>
      let chunk0 := hashFn (seed ++ be32 i)
      let chunk :=
        if length - i * hashSize < chunk0.length then chunk0.take (length - i * hashSize)
        else chunk0
      writeAt mask (i * hashSize) chunk)
    (List.replicate length 0)

/-- `RsaOaepProvider.mgf1(algorithm, seed, length)`: look up the digest
size for the algorithm's hash, then run the chunk loop. -/
def mgf1 (hashFn : List Nat → List Nat) (hashName : String)
    (seed : List Nat) (length : Nat) : Except JsError (List Nat) :=
  match ShaCrypto.size hashName with
  | Except.error e => Except.error e
  | Except.ok bits => Except.ok (mgf1Core hashFn (bits / 8) seed length)

/-- The PS scan of `onDecrypt` (lines 1162-1174): from index `hashSize`,
skip zero bytes; a 1 byte ends the padding and everything after it is the
plaintext; any other byte, or running off the end of the data block,
throws the generic failure. -/
def psScan (dataBlock : List Nat) (psEnd : Nat) : Except JsError (List Nat) :=
  if h : psEnd < dataBlock.length then
    let psz := dataBlock.get ⟨psEnd, h⟩
    if psz = 1 then Except.ok (dataBlock.drop (psEnd + 1))
    else if psz ≠ 0 then Except.error (JsError.error "Decryption failed")
    else psScan dataBlock (psEnd + 1)
  else Except.error (JsError.error "Decryption failed")
termination_by dataBlock.length - psEnd

/-- `RsaOaepProvider.onDecrypt(algorithm, key, data)`: reject input whose
length differs from the modulus byte length with `Error("Bad data")`;
RSA-decrypt without padding; reject a nonzero leading byte, unmask seed
then data block with MGF1, compare the recovered label hash byte-for-byte
(JS `!==` on possibly out-of-range indexes is Option equality), and scan
for the `0x01` delimiter; all unpadding failures throw
`Error("Decryption failed")`. -/
def RsaOaepProvider.onDecrypt (hashFn : List Nat → List Nat) (hashName : String)
    (privateDecrypt : List Nat → List Nat) (modulusLength : Nat)
    (label : List Nat) (data : List Nat) : Except JsError (List Nat) :=
  match ShaCrypto.size hashName with
  | Except.error e => Except.error e
  | Except.ok bits =>
    let keySize := modulusLength / 8
    let hashSize := bits / 8
    let dataLength := data.length
    if dataLength ≠ keySize then Except.error (JsError.error "Bad data")
    else
      let pkcs0 := privateDecrypt data
      let z := pkcs0.get? 0
      let seed0 := (pkcs0.drop 1).take hashSize
      let dataBlock0 := pkcs0.drop (hashSize + 1)
      if z ≠ some 0 then Except.error (JsError.error "Decryption failed")
      else
        match mgf1 hashFn hashName dataBlock0 seed0.length with
        | Except.error e => Except.error e
        | Except.ok seedMask =>
          let seed := xorB seed0 seedMask
          match mgf1 hashFn hashName seed dataBlock0.length with
          | Except.error e => Except.error e
          | Except.ok dataBlockMask =>
            let dataBlock := xorB dataBlock0 dataBlockMask
            let labelHash := hashFn label
            if (List.range hashSize).all
                (fun i => labelHash.get? i == dataBlock.get? i) then
              psScan dataBlock hashSize
            else Except.error (JsError.error "Decryption failed")

theorem psScan_error (dataBlock : List Nat) (psEnd : Nat) (e : JsError)
    (h : psScan dataBlock psEnd = Except.error e) :
    e = JsError.error "Decryption failed" := by
  rw [psScan] at h
  by_cases hlt : psEnd < dataBlock.length
  · rw [dif_pos hlt] at h
    by_cases h1 : dataBlock.get ⟨psEnd, hlt⟩ = 1
    · rw [if_pos h1] at h
      exact absurd h (by simp)
    · rw [if_neg h1] at h
      by_cases h0 : dataBlock.get ⟨psEnd, hlt⟩ ≠ 0
      · rw [if_pos h0] at h
        cases h
        rfl
      · rw [if_neg h0] at h
        exact psScan_error dataBlock (psEnd + 1) e h
  · rw [dif_neg hlt] at h
    cases h
    rfl
termination_by dataBlock.length - psEnd
decreasing_by omega

/-- C2 counterexample: with a concrete (constant-zero, SHA-1-sized) hash,
the identity as the raw private-key operation and a 352-bit modulus,
an input of the wrong length fails with `Error("Bad data")` while a
label-hash mismatch at the correct length fails with
`Error("Decryption failed")`: two distinct unpadding-failure causes raise
two different errors, so they are distinguishable to the caller. -/
theorem rsaOaepOnDecrypt_two_distinct_errors :
    RsaOaepProvider.onDecrypt (fun _ => List.replicate 20 0) "SHA-1" (fun d => d) 352
        [] [] = Except.error (JsError.error "Bad data") ∧
    RsaOaepProvider.onDecrypt (fun _ => List.replicate 20 0) "SHA-1" (fun d => d) 352
        [] (0 :: List.replicate 43 5) = Except.error (JsError.error "Decryption failed") ∧
    JsError.error "Bad data" ≠ JsError.error "Decryption failed" := by
  refine ⟨by rfl, by rfl, by decide⟩

/-- C2 (amended): for every hash primitive with a recognized hash name,
every raw private-key operation, modulus length, label and ciphertext:
a ciphertext whose length differs from the modulus byte length fails with
the distinct error `Error("Bad data")`; every other failure of the
unpadding (nonzero leading byte, label-hash mismatch, missing `0x01`
delimiter) raises the one identical generic `Error("Decryption failed")`,
so those causes — but not the length check — are indistinguishable. -/
theorem rsaOaepOnDecrypt_error_uniqueness (hashFn : List Nat → List Nat)
    (hashName : String) (privateDecrypt : List Nat → List Nat)
    (modulusLength : Nat) (label data : List Nat) (bits : Nat)
    (hbits : ShaCrypto.size hashName = Except.ok bits) :
    (data.length ≠ modulusLength / 8 →
      RsaOaepProvider.onDecrypt hashFn hashName privateDecrypt modulusLength label data
        = Except.error (JsError.error "Bad data")) ∧
    (data.length = modulusLength / 8 →
      ∀ e, RsaOaepProvider.onDecrypt hashFn hashName privateDecrypt modulusLength label data
          = Except.error e →
        e = JsError.error "Decryption failed") := by
  constructor
  · intro hne
    rw [RsaOaepProvider.onDecrypt, hbits]
    simp only [if_pos hne]
  · intro hlen e he
    rw [RsaOaepProvider.onDecrypt] at he
    rw [hbits] at he
    simp only [mgf1, hbits] at he
    rw [if_neg (by omega : ¬data.length ≠ modulusLength / 8)] at he
    split at he
    · cases he
      rfl
    · split at he
      · exact psScan_error _ _ e he
      · cases he
        rfl

/-- C2 witness: the amended theorem applied at the concrete
counterexample instantiation (wrong-length input branch). -/
theorem rsaOaepOnDecrypt_error_uniqueness_witness :
    RsaOaepProvider.onDecrypt (fun _ => List.replicate 20 0) "SHA-1" (fun d => d) 352 [] []
      = Except.error (JsError.error "Bad data") :=
  (rsaOaepOnDecrypt_error_uniqueness (fun _ => List.replicate 20 0) "SHA-1"
    (fun d => d) 352 [] [] 160 (by rfl)).1 (by decide)

/-! ## ECDSA raw-signature handling (EcCrypto.verify, lines 1418-1435;
EcCrypto.getPointSize, lines 1548-1560; removePadding, lines 1566-1574)

The primitive ASN.1 `SEQUENCE{INTEGER r, INTEGER s}` serializer plus
node's `Verify.verify` are abstracted as
`verifier : r -> s -> data -> Bool`. -/

/-- `EcCrypto.EcCrypto.getPointSize(namedCurve)`. -/
def EcCrypto.getPointSize (namedCurve : String) : Except JsError Nat :=
  match namedCurve with
  | "P-256" | "K-256" => Except.ok 32
  | "P-384" => Except.ok 48
  | "P-521" => Except.ok 66
  | _ => Except.error (JsError.error
      ("Cannot get size for the named curve \x27" ++ namedCurve ++ "\x27"))

/-- `EcCrypto.removePadding(bytes)`: skip leading zero bytes; return the
rest (empty if all bytes are zero). -/
def removePadding (bytes : List Nat) : List Nat :=
  bytes.dropWhile (fun b => b == 0)

/-- `EcCrypto.verify(algorithm, key, signature, data)`: split the raw
signature as `r = removePadding(signature.slice(0, pointSize))` and
`s = removePadding(signature.slice(pointSize, 2*pointSize))`, then hand
the re-encoded (r, s) to the primitive verifier.  There is no check that
`signature.length = 2 * pointSize`. -/
def EcCrypto.verify (verifier : List Nat → List Nat → List Nat → Bool)
    (namedCurve : String) (signature data : List Nat) : Except JsError Bool :=
  match EcCrypto.getPointSize namedCurve with
  | Except.error e => Except.error e
  | Except.ok pointSize =>
      let r := removePadding (signature.take pointSize)
      let s := removePadding ((signature.drop pointSize).take pointSize)
      Except.ok (verifier r s data)

/-- C5 counterexample: on P-256 (point size 32) a raw signature of length
1 ≠ 2·32 is not rejected: `verify` still invokes the primitive verifier
and returns its verdict. -/
theorem ecVerify_accepts_wrong_length :
    EcCrypto.verify (fun _ _ _ => true) "P-256" [1] [] = Except.ok true ∧
    (1 : Nat) ≠ 2 * 32 := by
  exact ⟨rfl, by decide⟩

/-- C5 (amended): `verify` performs no raw-signature length check.  For
every supported curve (P-256, K-256: 32; P-384: 48; P-521: 66) and a raw
signature of ANY byte length, the signature is split into
`r = removePadding(first pointSize bytes)` and
`s = removePadding(next pointSize bytes)` (missing bytes simply absent)
and verification proceeds with the primitive verifier; only an
unsupported curve name fails. -/
theorem ecVerify_spec :
    EcCrypto.getPointSize "P-256" = Except.ok 32 ∧
    EcCrypto.getPointSize "K-256" = Except.ok 32 ∧
    EcCrypto.getPointSize "P-384" = Except.ok 48 ∧
    EcCrypto.getPointSize "P-521" = Except.ok 66 ∧
    (∀ (verifier : List Nat → List Nat → List Nat → Bool)
       (namedCurve : String) (pointSize : Nat) (signature data : List Nat),
       EcCrypto.getPointSize namedCurve = Except.ok pointSize →
       EcCrypto.verify verifier namedCurve signature data =
         Except.ok (verifier (removePadding (signature.take pointSize))
           (removePadding ((signature.drop pointSize).take pointSize)) data)) := by
  refine ⟨rfl, rfl, rfl, rfl, ?_⟩
  intro verifier namedCurve pointSize signature data h
  rw [EcCrypto.verify, h]

/-- C5 witness: the amended theorem applied on P-384 with a 5-byte
signature and an always-false verifier. -/
theorem ecVerify_spec_witness :
    EcCrypto.verify (fun _ _ _ => false) "P-384" [9, 9, 9, 9, 9] [1] =
      Except.ok ((fun _ _ _ => false) (removePadding ([9, 9, 9, 9, 9].take 48))
        (removePadding (([9, 9, 9, 9, 9].drop 48).take 48)) [1]) :=
  ecVerify_spec.2.2.2.2 (fun _ _ _ => false) "P-384" 48 [9, 9, 9, 9, 9] [1] rfl

/-! ## JS 32-bit integer coercions

`key.data.length << 3` in `AesCrypto.importKey` and
`(algorithm.length || default) >> 3 << 3` in `HmacProvider.onGenerateKey`
run through the JS `ToInt32` conversion, and every JS shift wraps its
result back into the signed 32-bit range. -/

/-- JS `ToInt32` on a natural number. -/
def jsToInt32 (n : Nat) : Int :=
  let m := n % 4294967296
  if m < 2147483648 then (m : Int) else (m : Int) - 4294967296

/-- Wrap an integer back into the int32 range (what a JS shift does to
its result). -/
def int32Wrap (x : Int) : Int :=
  let m := x % 4294967296
  if m < 2147483648 then m else m - 4294967296

/-- `(value) << 3`: ToInt32, multiply by 8, wrap back to int32. -/
def jsShl3 (n : Nat) : Int :=
  int32Wrap (jsToInt32 n * 8)

theorem jsToInt32_bounds (n : Nat) :
    -2147483648 ≤ jsToInt32 n ∧ jsToInt32 n < 2147483648 := by
  have h : n % 4294967296 < 4294967296 := Nat.mod_lt n (by norm_num)
  simp only [jsToInt32]
  split <;> omega

theorem jsToInt32_of_lt (n : Nat) (h : n < 2147483648) : jsToInt32 n = (n : Int) := by
  simp only [jsToInt32]
  rw [Nat.mod_eq_of_lt (by omega)]
  rw [if_pos (by exact_mod_cast h)]

theorem int32Wrap_eq_self (z : Int) (h1 : -2147483648 ≤ z) (h2 : z < 2147483648) :
    int32Wrap z = z := by
  simp only [int32Wrap]
  split <;> omega

theorem jsShl3_of_lt (n : Nat) (h : n < 268435456) :
    jsShl3 n = ((n * 8 : Nat) : Int) := by
  rw [jsShl3, jsToInt32_of_lt n (by omega)]
  have h3 : (n : Int) * 8 = ((n * 8 : Nat) : Int) := by push_cast; ring
  rw [h3]
  exact int32Wrap_eq_self _ (by omega) (by exact_mod_cast (by omega : n * 8 < 2147483648))

/-! ## Symmetric importKey length validation (AesCrypto.importKey,
lines 128-154; DesCbcProvider.onImportKey, lines 659-665;
DesEde3CbcProvider.onImportKey, lines 697-703)

The raw-format branch is modelled; the JWK branch goes through the
external JSON-schema codec but feeds the same `key.data` bytes into the
identical length check. -/

/-- `AesCrypto.importKey("raw", keyData, ...)`: `key.data = keyData`,
`key.algorithm.length = key.data.length << 3` — a JS `<<`, so the bit
length is the int32-wrapped value — then only 128/192/256 pass the
switch; anything else throws an `OperationError`. -/
def AesCrypto.importKey (keyData : List Nat) (algName : String) (extractable : Bool)
    (keyUsages : List String) : Except JsError KeyMaterial :=
  let length := jsShl3 keyData.length
  if length = 128 ∨ length = 192 ∨ length = 256 then
    Except.ok
      { data := keyData
        algorithm := some { name := algName, length := some length.toNat }
        extractable := extractable
        type := "secret"
        usages := keyUsages }
  else Except.error (JsError.operationError "keyData: Is wrong key length")

/-- `DesCbcProvider.onImportKey("raw", ...)` (keySizeBits = 64):
`DesCrypto.importKey` copies the bytes; the provider then rejects any
`key.data.length ≠ 64 / 8` with an `OperationError`. -/
def DesCbcProvider.onImportKey (keyData : List Nat) (extractable : Bool)
    (keyUsages : List String) : Except JsError KeyMaterial :=
  let keySizeBits := 64
  let key : KeyMaterial :=
    { data := keyData
      algorithm := some { name := "DES-CBC", length := some keySizeBits }
      extractable := extractable
      type := "secret"
      usages := keyUsages }
  if keyData.length ≠ keySizeBits / 8 then
    Except.error (JsError.operationError "keyData: Wrong key size")
  else Except.ok key

/-- `DesEde3CbcProvider.onImportKey("raw", ...)` (keySizeBits = 192):
same shape as DES-CBC with the triple-DES key size. -/
def DesEde3CbcProvider.onImportKey (keyData : List Nat) (extractable : Bool)
    (keyUsages : List String) : Except JsError KeyMaterial :=
  let keySizeBits := 192
  let key : KeyMaterial :=
    { data := keyData
      algorithm := some { name := "DES-EDE3-CBC", length := some keySizeBits }
      extractable := extractable
      type := "secret"
      usages := keyUsages }
  if keyData.length ≠ keySizeBits / 8 then
    Except.error (JsError.operationError "keyData: Wrong key size")
  else Except.ok key

/-- C7 counterexample: raw AES key data of 536870928 bytes (2^29 + 16;
actual bit length 4294967424 = 2^32 + 128, which is not one of the legal
AES lengths) is nevertheless accepted: the JS `<< 3` wraps the bit
length to the int32 value 128, which passes the 128/192/256 switch, so
an illegal key length does not fail with an operation error. -/
theorem aesImportKey_wrapped_length_accepted :
    (∃ k, AesCrypto.importKey (List.replicate 536870928 0) "AES-CBC" true []
        = Except.ok k) ∧
    (List.replicate 536870928 (0 : Nat)).length * 8 ≠ 128 ∧
    (List.replicate 536870928 (0 : Nat)).length * 8 ≠ 192 ∧
    (List.replicate 536870928 (0 : Nat)).length * 8 ≠ 256 := by
  have hlen : (List.replicate 536870928 (0 : Nat)).length = 536870928 :=
    List.length_replicate 536870928 0
  have hshl : jsShl3 536870928 = 128 := by decide
  refine ⟨⟨{ data := List.replicate 536870928 0
             algorithm := some { name := "AES-CBC", length := some 128 }
             extractable := true
             type := "secret"
             usages := [] }, ?_⟩,
    by rw [hlen]; norm_num, by rw [hlen]; norm_num, by rw [hlen]; norm_num⟩
  simp only [AesCrypto.importKey, hlen, hshl]
  rw [if_pos (Or.inl trivial)]
  rfl

/-- C7 (amended): the AES import compares the int32-wrapped bit length
`key.data.length << 3` against 128/192/256; for key data below 2^28
bytes that wrapped value is exactly the bit length, so ordinary inputs
are accepted at exactly 128/192/256 bits and any other length fails with
an `OperationError` — but oversized key data whose wrapped bit length
collides with a legal value is also accepted.  The DES-CBC and
DES-EDE3-CBC imports accept exactly 64-bit and 192-bit key data and
fail with an `OperationError` otherwise. -/
theorem symmetricImportKey_length_check (keyData : List Nat) (algName : String)
    (extractable : Bool) (keyUsages : List String) :
    ((jsShl3 keyData.length = 128 ∨ jsShl3 keyData.length = 192 ∨
        jsShl3 keyData.length = 256) ↔
      ∃ k, AesCrypto.importKey keyData algName extractable keyUsages = Except.ok k) ∧
    (¬(jsShl3 keyData.length = 128 ∨ jsShl3 keyData.length = 192 ∨
        jsShl3 keyData.length = 256) →
      AesCrypto.importKey keyData algName extractable keyUsages
        = Except.error (JsError.operationError "keyData: Is wrong key length")) ∧
    (keyData.length < 268435456 →
      jsShl3 keyData.length = ((keyData.length * 8 : Nat) : Int)) ∧
    ((keyData.length * 8 = 64) ↔
      ∃ k, DesCbcProvider.onImportKey keyData extractable keyUsages = Except.ok k) ∧
    (keyData.length * 8 ≠ 64 →
      DesCbcProvider.onImportKey keyData extractable keyUsages
        = Except.error (JsError.operationError "keyData: Wrong key size")) ∧
    ((keyData.length * 8 = 192) ↔
      ∃ k, DesEde3CbcProvider.onImportKey keyData extractable keyUsages = Except.ok k) ∧
    (keyData.length * 8 ≠ 192 →
      DesEde3CbcProvider.onImportKey keyData extractable keyUsages
        = Except.error (JsError.operationError "keyData: Wrong key size")) := by
  refine ⟨?_, ?_, ?_, ?_, ?_, ?_, ?_⟩
  · constructor
    · intro h
      exact ⟨_, by rw [AesCrypto.importKey, if_pos h]⟩
    · rintro ⟨k, hk⟩
      by_contra h
      rw [AesCrypto.importKey, if_neg h] at hk
      cases hk
  · intro h
    rw [AesCrypto.importKey, if_neg h]
  · intro h
    exact jsShl3_of_lt keyData.length h
  · constructor
    · intro h
      exact ⟨_, by rw [DesCbcProvider.onImportKey, if_neg (by omega : ¬keyData.length ≠ 64 / 8)]⟩
    · rintro ⟨k, hk⟩
      rw [DesCbcProvider.onImportKey] at hk
      by_cases h : keyData.length ≠ 64 / 8
      · rw [if_pos h] at hk
        cases hk
      · omega
  · intro h
    rw [DesCbcProvider.onImportKey, if_pos (by omega : keyData.length ≠ 64 / 8)]
  · constructor
    · intro h
      exact ⟨_, by rw [DesEde3CbcProvider.onImportKey, if_neg (by omega : ¬keyData.length ≠ 192 / 8)]⟩
    · rintro ⟨k, hk⟩
      rw [DesEde3CbcProvider.onImportKey] at hk
      by_cases h : keyData.length ≠ 192 / 8
      · rw [if_pos h] at hk
        cases hk
      · omega
  · intro h
    rw [DesEde3CbcProvider.onImportKey, if_pos (by omega : keyData.length ≠ 192 / 8)]

/-- C7 witness: 17-byte key data (wrapped bit length 136) is rejected by
the AES key import with the operation error, and its wrapped bit length
is the plain bit length, by the theorem's second and third components. -/
theorem symmetricImportKey_length_check_witness :
    AesCrypto.importKey (List.replicate 17 1) "AES-CBC" true []
      = Except.error (JsError.operationError "keyData: Is wrong key length") ∧
    jsShl3 (List.replicate 17 (1 : Nat)).length = (((17 * 8 : Nat) : Int)) :=
  ⟨(symmetricImportKey_length_check (List.replicate 17 1) "AES-CBC" true []).2.1
     (by decide),
   (symmetricImportKey_length_check (List.replicate 17 1) "AES-CBC" true []).2.2.1
     (by decide)⟩

/-! ## Asymmetric generateKey usage/extractable bookkeeping
(RsaCrypto.generateKey, lines 788-820; EcCrypto.generateKey, lines
1372-1399; EdCrypto.generateKey, lines 1734-1761; legal usage lists at
lines 986-987, 1576-1577, 1868-1869) -/

/-- `RsaCrypto.privateKeyUsages`. -/
def RsaCrypto.privateKeyUsages : List String := ["sign", "decrypt", "unwrapKey"]

/-- `RsaCrypto.publicKeyUsages`. -/
def RsaCrypto.publicKeyUsages : List String := ["verify", "encrypt", "wrapKey"]

/-- `EcCrypto.privateKeyUsages`. -/
def EcCrypto.privateKeyUsages : List String := ["sign", "deriveKey", "deriveBits"]

/-- `EcCrypto.publicKeyUsages`. -/
def EcCrypto.publicKeyUsages : List String := ["verify"]

/-- `EdCrypto.privateKeyUsages`. -/
def EdCrypto.privateKeyUsages : List String := ["sign", "deriveKey", "deriveBits"]

/-- `EdCrypto.publicKeyUsages`. -/
def EdCrypto.publicKeyUsages : List String := ["verify"]

/-- The private/public key bookkeeping shared verbatim by
`RsaCrypto.generateKey`, `EcCrypto.generateKey` and
`EdCrypto.generateKey`: the private key takes the caller's extractable
flag and the requested usages filtered by the family's private legal
list (`indexOf(usage) !== -1`); the public key has `extractable = true`
and the requested usages filtered by the public legal list.  The DER
key pair produced by the primitive engine is passed in as
`privData`/`pubData`. -/
def generateKeyPairMeta (privLegal pubLegal : List String)
    (algorithm : Algorithm) (extractable : Bool) (keyUsages : List String)
    (privData pubData : List Nat) : KeyMaterial × KeyMaterial :=
  ({ data := privData
     algorithm := some algorithm
     extractable := extractable
     type := "private"
     usages := keyUsages.filter (fun u => privLegal.contains u) },
   { data := pubData
     algorithm := some algorithm
     extractable := true
     type := "public"
     usages := keyUsages.filter (fun u => pubLegal.contains u) })

/-- The private-key legal superset named by the claim. -/
def claimPrivateUsageSet : List String :=
  ["sign", "decrypt", "unwrapKey", "deriveKey", "deriveBits"]

/-- The public-key legal superset named by the claim. -/
def claimPublicUsageSet : List String := ["verify", "encrypt", "wrapKey"]

theorem filter_all_of_imp (p q : String → Bool) (l : List String)
    (h : ∀ u, p u = true → q u = true) : (l.filter p).all q = true := by
  induction l with
  | nil => rfl
  | cons x xs ih =>
      rw [List.filter_cons]
      by_cases hx : p x = true
      · rw [if_pos hx]
        simp only [List.all_cons, Bool.and_eq_true]
        exact ⟨h x hx, ih⟩
      · rw [if_neg hx]
        exact ih

/-- C8: for every asymmetric `generateKey` (RSA, EC, Ed/X), any requested
extractable flag and usages: the public key is always extractable; the
private key's usages are the requested usages intersected with the
family's private legal list (a subset of
{sign, decrypt, unwrapKey, deriveKey, deriveBits}); the public key's
usages are intersected with the public legal list (a subset of
{verify, encrypt, wrapKey}). -/
theorem asymmetric_generateKey_spec (algorithm : Algorithm) (extractable : Bool)
    (keyUsages : List String) (privData pubData : List Nat) :
    ((generateKeyPairMeta RsaCrypto.privateKeyUsages RsaCrypto.publicKeyUsages algorithm
        extractable keyUsages privData pubData).2.extractable = true ∧
      (generateKeyPairMeta EcCrypto.privateKeyUsages EcCrypto.publicKeyUsages algorithm
        extractable keyUsages privData pubData).2.extractable = true ∧
      (generateKeyPairMeta EdCrypto.privateKeyUsages EdCrypto.publicKeyUsages algorithm
        extractable keyUsages privData pubData).2.extractable = true) ∧
    ((generateKeyPairMeta RsaCrypto.privateKeyUsages RsaCrypto.publicKeyUsages algorithm
        extractable keyUsages privData pubData).1.usages
        = keyUsages.filter (fun u => RsaCrypto.privateKeyUsages.contains u) ∧
      (generateKeyPairMeta RsaCrypto.privateKeyUsages RsaCrypto.publicKeyUsages algorithm
        extractable keyUsages privData pubData).2.usages
        = keyUsages.filter (fun u => RsaCrypto.publicKeyUsages.contains u) ∧
      (generateKeyPairMeta EcCrypto.privateKeyUsages EcCrypto.publicKeyUsages algorithm
        extractable keyUsages privData pubData).1.usages
        = keyUsages.filter (fun u => EcCrypto.privateKeyUsages.contains u) ∧
      (generateKeyPairMeta EcCrypto.privateKeyUsages EcCrypto.publicKeyUsages algorithm
        extractable keyUsages privData pubData).2.usages
        = keyUsages.filter (fun u => EcCrypto.publicKeyUsages.contains u) ∧
      (generateKeyPairMeta EdCrypto.privateKeyUsages EdCrypto.publicKeyUsages algorithm
        extractable keyUsages privData pubData).1.usages
        = keyUsages.filter (fun u => EdCrypto.privateKeyUsages.contains u) ∧
      (generateKeyPairMeta EdCrypto.privateKeyUsages EdCrypto.publicKeyUsages algorithm
        extractable keyUsages privData pubData).2.usages
        = keyUsages.filter (fun u => EdCrypto.publicKeyUsages.contains u)) ∧
    ((generateKeyPairMeta RsaCrypto.privateKeyUsages RsaCrypto.publicKeyUsages algorithm
        extractable keyUsages privData pubData).1.usages.all
        (fun u => claimPrivateUsageSet.contains u) = true ∧
      (generateKeyPairMeta RsaCrypto.privateKeyUsages RsaCrypto.publicKeyUsages algorithm
        extractable keyUsages privData pubData).2.usages.all
        (fun u => claimPublicUsageSet.contains u) = true ∧
      (generateKeyPairMeta EcCrypto.privateKeyUsages EcCrypto.publicKeyUsages algorithm
        extractable keyUsages privData pubData).1.usages.all
        (fun u => claimPrivateUsageSet.contains u) = true ∧
      (generateKeyPairMeta EcCrypto.privateKeyUsages EcCrypto.publicKeyUsages algorithm
        extractable keyUsages privData pubData).2.usages.all
        (fun u => claimPublicUsageSet.contains u) = true ∧
      (generateKeyPairMeta EdCrypto.privateKeyUsages EdCrypto.publicKeyUsages algorithm
        extractable keyUsages privData pubData).1.usages.all
        (fun u => claimPrivateUsageSet.contains u) = true ∧
      (generateKeyPairMeta EdCrypto.privateKeyUsages EdCrypto.publicKeyUsages algorithm
        extractable keyUsages privData pubData).2.usages.all
        (fun u => claimPublicUsageSet.contains u) = true) := by
  refine ⟨⟨rfl, rfl, rfl⟩, ⟨rfl, rfl, rfl, rfl, rfl, rfl⟩, ?_, ?_, ?_, ?_, ?_, ?_⟩ <;>
    (refine filter_all_of_imp _ _ keyUsages ?_
     intro u hu
     simp only [RsaCrypto.privateKeyUsages, RsaCrypto.publicKeyUsages, EcCrypto.privateKeyUsages,
       EcCrypto.publicKeyUsages, EdCrypto.privateKeyUsages, EdCrypto.publicKeyUsages,
       claimPrivateUsageSet, claimPublicUsageSet, List.contains, List.elem_eq_mem,
       decide_eq_true_eq] at hu ⊢
     fin_cases hu <;> decide)

/-! ## PBKDF2 importKey (Pbkdf2Provider.onImportKey, lines 1983-1993) -/

/-- `Pbkdf2Provider.onImportKey(format, keyData, algorithm, extractable,
keyUsages)`: only `"raw"` is accepted; the stored key's `extractable`
field is hard-coded `false`, ignoring the caller's argument; the handle
is produced through `setCryptoKey`. -/
def Pbkdf2Provider.onImportKey (st : KeyStorage) (format : String) (keyData : List Nat)
    (extractable : Bool) (keyUsages : List String) :
    Except JsError (KeyStorage × CoreKey) :=
  if format = "raw" then
    let key : KeyMaterial :=
      { data := keyData
        algorithm := some { name := "PBKDF2" }
        extractable := false
        type := "secret"
        usages := keyUsages }
    Except.ok (setCryptoKey st key)
  else Except.error (JsError.operationError "format: Must be \x27raw\x27")

/-- C9: for every key data, usage list and every caller-supplied
extractable argument (including `true`), the PBKDF2 raw import succeeds
with a key material whose `extractable` is `false`, and the handle
returned by the registry also has `extractable = false`: the result does
not depend on the extractable argument at all. -/
theorem pbkdf2ImportKey_ignores_extractable (st : KeyStorage) (keyData : List Nat)
    (extractable : Bool) (keyUsages : List String) :
    Pbkdf2Provider.onImportKey st "raw" keyData extractable keyUsages
      = Except.ok (setCryptoKey st
          { data := keyData
            algorithm := some { name := "PBKDF2" }
            extractable := false
            type := "secret"
            usages := keyUsages }) ∧
    ((setCryptoKey st
        { data := keyData
          algorithm := some { name := "PBKDF2" }
          extractable := false
          type := "secret"
          usages := keyUsages }).2).extractable = false ∧
    Pbkdf2Provider.onImportKey st "raw" keyData extractable keyUsages
      = Pbkdf2Provider.onImportKey st "raw" keyData true keyUsages := by
  exact ⟨rfl, rfl, rfl⟩

/-! ## HMAC generateKey (HmacProvider.onGenerateKey, lines 2015-2027)

`core.HmacProvider.getDefaultLength` lives in the external
`webcrypto-core` collaborator, so its value is a parameter
(`defaultLength`); node's `randomBytes` is likewise a parameter. -/

/-- `(value) >> 3 << 3`: ToInt32, arithmetic shift right by 3 (floor
division by 8), then shift left by 3 with int32 wraparound. -/
def jsShr3Shl3 (n : Nat) : Int :=
  int32Wrap (Int.fdiv (jsToInt32 n) 8 * 8)

/-- `algorithm.length || getDefaultLength(...)`: JS falsiness — an
absent length AND an explicit length of 0 both select the default. -/
def lengthOrDefault (length : Option Nat) (dflt : Nat) : Nat :=
  match length with
  | some l => if l ≠ 0 then l else dflt
  | none => dflt

/-- The result of `HmacProvider.onGenerateKey` before registration:
`length` is the stored `algorithm.length`, `dataLength` the byte count
handed to `randomBytes` (`length >> 3`). -/
structure HmacGenerated where
  length : Int
  data : List Nat
  extractable : Bool
  usages : List String
deriving Repr

/-- `HmacProvider.onGenerateKey(algorithm, extractable, keyUsages)`:
`length = (algorithm.length || getDefaultLength(hash)) >> 3 << 3`; the
stored `algorithm.length` is that value and the key data is
`randomBytes(length >> 3)`. -/
def HmacProvider.onGenerateKey (randomBytes : Nat → List Nat) (algLength : Option Nat)
    (defaultLength : Nat) (extractable : Bool) (keyUsages : List String) :
    HmacGenerated :=
  let length := jsShr3Shl3 (lengthOrDefault algLength defaultLength)
  { length := length
    data := randomBytes (Int.fdiv length 8).toNat
    extractable := extractable
    usages := keyUsages }

/-- C10 counterexample: an explicit requested length of 0 is NOT
rounded to 0 as the claim implies — the JS `||` treats it as absent and
falls back to the default (here 256), so the stored `algorithm.length`
is 256, not the rounded requested value 0. -/
theorem hmacOnGenerateKey_explicit_zero :
    (HmacProvider.onGenerateKey (fun n => List.replicate n 0) (some 0) 256 true []).length = 256 ∧
    (256 : Int) ≠ ((0 : Nat) / 8 * 8 : Nat) := by
  exact ⟨rfl, by decide⟩

theorem jsShr3Shl3_of_lt (n : Nat) (h : n < 2147483648) :
    jsShr3Shl3 n = ((n / 8 * 8 : Nat) : Int) := by
  have h1 : jsToInt32 n = (n : Int) := jsToInt32_of_lt n h
  have h2 : Int.fdiv (n : Int) 8 = ((n / 8 : Nat) : Int) := by
    rw [Int.fdiv_eq_ediv _ (by norm_num)]
    omega
  have h3 : ((n / 8 : Nat) : Int) * 8 = ((n / 8 * 8 : Nat) : Int) := by push_cast; ring
  rw [jsShr3Shl3, h1, h2, h3]
  exact int32Wrap_eq_self _ (by omega)
    (by exact_mod_cast (by omega : n / 8 * 8 < 2147483648))

theorem jsShr3Shl3_eq (n : Nat) :
    jsShr3Shl3 n = jsToInt32 n - jsToInt32 n % 8 := by
  obtain ⟨h1, h2⟩ := jsToInt32_bounds n
  have hf : Int.fdiv (jsToInt32 n) 8 = jsToInt32 n / 8 :=
    Int.fdiv_eq_ediv _ (by norm_num)
  rw [jsShr3Shl3, hf]
  have h3 : jsToInt32 n / 8 * 8 = jsToInt32 n - jsToInt32 n % 8 := by omega
  rw [h3]
  exact int32Wrap_eq_self _ (by omega) (by omega)

/-- C10 (amended): for every HMAC `generateKey` call, the effective bit
length is the requested length when it is nonzero, and the hash's
default length when the length is omitted OR explicitly 0 (JS `||`).
The stored `algorithm.length` is `effective >> 3 << 3`: the ToInt32
value of the effective length with its low three bits cleared — for
effective lengths below 2^31 this is exactly rounding down to a multiple
of 8, while larger requests wrap (e.g. 2^32 + 64 becomes 64).  Whenever
that value is nonnegative, the key data is `value >> 3` random bytes,
i.e. exactly the stored number of bits. -/
theorem hmacOnGenerateKey_spec (randomBytes : Nat → List Nat)
    (algLength : Option Nat) (defaultLength : Nat) (extractable : Bool)
    (keyUsages : List String)
    (hrb : ∀ n, (randomBytes n).length = n) :
    (HmacProvider.onGenerateKey randomBytes algLength defaultLength extractable keyUsages).length
        = jsToInt32 (lengthOrDefault algLength defaultLength)
            - jsToInt32 (lengthOrDefault algLength defaultLength) % 8 ∧
    (0 ≤ jsToInt32 (lengthOrDefault algLength defaultLength) →
      ((HmacProvider.onGenerateKey randomBytes algLength defaultLength extractable
          keyUsages).data.length : Int) * 8
        = (HmacProvider.onGenerateKey randomBytes algLength defaultLength extractable
            keyUsages).length) ∧
    (lengthOrDefault algLength defaultLength < 2147483648 →
      (HmacProvider.onGenerateKey randomBytes algLength defaultLength extractable
          keyUsages).length
        = ((lengthOrDefault algLength defaultLength / 8 * 8 : Nat) : Int)) ∧
    (lengthOrDefault algLength defaultLength < 2147483648 →
      (HmacProvider.onGenerateKey randomBytes algLength defaultLength extractable
          keyUsages).data.length
        = lengthOrDefault algLength defaultLength / 8) ∧
    (HmacProvider.onGenerateKey randomBytes algLength defaultLength extractable keyUsages).extractable
        = extractable ∧
    (HmacProvider.onGenerateKey randomBytes algLength defaultLength extractable keyUsages).usages
        = keyUsages ∧
    lengthOrDefault none defaultLength = defaultLength ∧
    lengthOrDefault (some 0) defaultLength = defaultLength ∧
    (∀ n, n ≠ 0 → lengthOrDefault (some n) defaultLength = n) := by
  refine ⟨?_, ?_, ?_, ?_, rfl, rfl, rfl, rfl, ?_⟩
  · show jsShr3Shl3 (lengthOrDefault algLength defaultLength)
        = jsToInt32 (lengthOrDefault algLength defaultLength)
            - jsToInt32 (lengthOrDefault algLength defaultLength) % 8
    exact jsShr3Shl3_eq _
  · intro h0
    show ((randomBytes (Int.fdiv (jsShr3Shl3 (lengthOrDefault algLength defaultLength)) 8).toNat).length : Int) * 8
        = jsShr3Shl3 (lengthOrDefault algLength defaultLength)
    rw [hrb, jsShr3Shl3_eq]
    set x := jsToInt32 (lengthOrDefault algLength defaultLength) with hx
    have hf : Int.fdiv (x - x % 8) 8 = (x - x % 8) / 8 := Int.fdiv_eq_ediv _ (by norm_num)
    rw [hf]
    have ht : (((x - x % 8) / 8).toNat : Int) = (x - x % 8) / 8 :=
      Int.toNat_of_nonneg (by omega)
    rw [ht]
    omega
  · intro h
    show jsShr3Shl3 (lengthOrDefault algLength defaultLength)
        = ((lengthOrDefault algLength defaultLength / 8 * 8 : Nat) : Int)
    exact jsShr3Shl3_of_lt _ h
  · intro h
    show (randomBytes (Int.fdiv (jsShr3Shl3 (lengthOrDefault algLength defaultLength)) 8).toNat).length
        = lengthOrDefault algLength defaultLength / 8
    rw [jsShr3Shl3_of_lt _ h, hrb]
    have h4 : Int.fdiv ((lengthOrDefault algLength defaultLength / 8 * 8 : Nat) : Int) 8
        = ((lengthOrDefault algLength defaultLength / 8 * 8 / 8 : Nat) : Int) := by
      rw [Int.fdiv_eq_ediv _ (by norm_num)]
      omega
    rw [h4]
    rw [Nat.mul_div_cancel _ (by norm_num : 0 < 8)]
    exact Int.toNat_ofNat _
  · intro n hn
    simp [lengthOrDefault, hn]

/-- C10 witness: the amended theorem applied with an explicit requested
length of 100 bits (rounded down to 96 = 12 bytes, default 512), and
with the oversized request 2^32 + 64, whose stored length wraps to 64. -/
theorem hmacOnGenerateKey_spec_witness :
    (HmacProvider.onGenerateKey (fun n => List.replicate n 0) (some 100) 512 true ["sign"]).length
        = ((100 / 8 * 8 : Nat) : Int) ∧
    (HmacProvider.onGenerateKey (fun n => List.replicate n 0) (some 100) 512 true ["sign"]).data.length
        = 100 / 8 ∧
    (HmacProvider.onGenerateKey (fun n => List.replicate n 0) (some 4294967360) 512 true ["sign"]).length
        = 64 :=
  ⟨(hmacOnGenerateKey_spec (fun n => List.replicate n 0) (some 100) 512 true ["sign"]
      (fun n => List.length_replicate n 0)).2.2.1 (by decide),
   (hmacOnGenerateKey_spec (fun n => List.replicate n 0) (some 100) 512 true ["sign"]
      (fun n => List.length_replicate n 0)).2.2.2.1 (by decide),
   by
     have h := (hmacOnGenerateKey_spec (fun n => List.replicate n 0) (some 4294967360) 512
       true ["sign"] (fun n => List.length_replicate n 0)).1
     rw [h]
     decide⟩

end Webcrypto
